import Mathlib

/-!
Shallow embedding of the author verification/determination system
(`src/procedures.py`, `src/algorithm.py`, `src/document.py`).

Chunks (rows of the vector-space model matrices) are modelled as lists of
rationals; the pluggable scalar distance metric and the external
Kolmogorov-Smirnov p-value computation (`scipy.stats.ks_2samp`) are abstracted
as function parameters.  Python exceptions (IndexError, KeyError, ValueError,
ZeroDivisionError, the dimension-mismatch ValueError of `document_distance`)
are modelled by `Option`: `none` means the Python code raises.

Python sequence indexing wraps negative indices to the tail of the sequence;
`pyGet` embeds that, `pyGetNW` is the variant without wraparound used to show
the wraparound branch is unreachable along the verification paths.  The core
functions are parametrised by the indexing function (`zv_functionG`, ...) and
specialised with `pyGet` to the functions named as in the source.
-/

/-- Chunk: one row of the vector-space model matrix, a numeric feature vector. -/
abbrev Chunk := List ℚ

/-- Pluggable scalar distance metric between two chunks (dense vectors). -/
abbrev DistFun := Chunk → Chunk → ℚ

/-- Abstraction of `scipy.stats.ks_2samp`: the p-value of the two-sample
Kolmogorov-Smirnov test (the test statistic is discarded by `tst`). -/
abbrev KSFun := List ℚ → List ℚ → ℚ

/-- An indexing policy for chunk sequences (Python indexing, with or without
negative-index wraparound). -/
abbrev GetFn := List Chunk → ℤ → Option Chunk

/-- Python sequence indexing `l[i]`: nonnegative indices are plain positions,
negative indices of magnitude at most `l.length` wrap to the tail, anything
else raises IndexError (modelled as `none`). -/
def pyGet {α : Type} (l : List α) (i : ℤ) : Option α :=
  if 0 ≤ i then l.get? i.toNat
  else if -(l.length : ℤ) ≤ i then l.get? (i + l.length).toNat
  else none

/-- Indexing without the negative-index wraparound: negative indices raise. -/
def pyGetNW {α : Type} (l : List α) (i : ℤ) : Option α :=
  if 0 ≤ i then l.get? i.toNat else none

/-- Python `range(a, b)` (step 1), as a list of integers. -/
def pyRange (a b : ℤ) : List ℤ :=
  (List.range (b - a).toNat).map (fun k : ℕ => a + (k : ℤ))

/-- Python `range(a, b, s)` for `s ≠ 0`, as a list of integers.  The `s = 0`
case raises ValueError in Python; callers guard it, the `[]` here is dead. -/
def pyRangeStep (a b s : ℤ) : List ℤ :=
  if s = 0 then []
  else if 0 < s then
    if a < b then (List.range ((b - a - 1).toNat / s.toNat + 1)).map (fun k : ℕ => a + (k : ℤ) * s)
    else []
  else
    if b < a then (List.range ((a - b - 1).toNat / (-s).toNat + 1)).map (fun k : ℕ => a + (k : ℤ) * s)
    else []

/-- Left-to-right effectful map over `Option`, embedding a Python list
comprehension whose body may raise. -/
def optMapM {α β : Type} (f : α → Option β) : List α → Option (List β)
  | [] => some []
  | a :: l => (f a).bind fun b => (optMapM f l).map fun bs => b :: bs

/-- The index Python's wraparound actually reads: `x` itself when `x ≥ 0`,
`x + n` (a tail position) when `x < 0`. -/
def pyWrapIdx (n : ℕ) (x : ℤ) : ℕ :=
  if x < 0 then (x + n).toNat else x.toNat

/-- Embedding of `procedures.document_distance`: dimension check, then the pluggable
metric.  A mismatch raises ValueError (`none`). -/
def document_distance (chunk1 chunk2 : Chunk) (distance_function : DistFun) : Option ℚ :=
  if chunk1.length ≠ chunk2.length then none
  else some (distance_function chunk1 chunk2)

/-- Embedding of `procedures.zv_function`, parametrised by the indexing policy:
sum of `document_distance(chunks[i], chunks[i-j])` for `j in range(time)`,
then multiplied by `1/time`; `time = 0` raises ZeroDivisionError (`none`). -/
def zv_functionG (g : GetFn) (chunks : List Chunk) (time : ℤ) (i : ℤ)
    (distance_function : DistFun) : Option ℚ :=
  (optMapM (fun j =>
      (g chunks i).bind fun c1 =>
      (g chunks (i - j)).bind fun c2 =>
      document_distance c1 c2 distance_function) (pyRange 0 time)).bind
    fun ds => if time = 0 then none else some ((1 / (time : ℚ)) * ds.sum)

/-- Embedding of `procedures.zv_function` with Python's wrapping indexing. -/
def zv_function : List Chunk → ℤ → ℤ → DistFun → Option ℚ :=
  zv_functionG pyGet

/-- Embedding of `procedures.zv_z1`, parametrised by the indexing policy:
`[zv_function(all_chunks, time, i) for i in range(time + 1, document.shape[0])]`. -/
def zv_z1G (g : GetFn) (all_chunks document : List Chunk) (time : ℤ)
    (distance_function : DistFun) : Option (List ℚ) :=
  optMapM (fun i => zv_functionG g all_chunks time i distance_function)
    (pyRange (time + 1) document.length)

/-- Embedding of `procedures.zv_z1` with Python's wrapping indexing. -/
def zv_z1 : List Chunk → List Chunk → ℤ → DistFun → Option (List ℚ) :=
  zv_z1G pyGet

/-- Embedding of `procedures.zv_z2`, parametrised by the indexing policy:
`[zv_function(all_chunks, time, i) for i in range(document.shape[0] + 1, all_chunks.shape[0])]`. -/
def zv_z2G (g : GetFn) (all_chunks document : List Chunk) (time : ℤ)
    (distance_function : DistFun) : Option (List ℚ) :=
  optMapM (fun i => zv_functionG g all_chunks time i distance_function)
    (pyRange ((document.length : ℤ) + 1) all_chunks.length)

/-- Embedding of `procedures.zv_z2` with Python's wrapping indexing. -/
def zv_z2 : List Chunk → List Chunk → ℤ → DistFun → Option (List ℚ) :=
  zv_z2G pyGet

/-- Embedding of `document.merge_documents`: rows of document2 stacked below document1. -/
def merge_documents (document1_chunks document2_chunks : List Chunk) : List Chunk :=
  document1_chunks ++ document2_chunks

/-- Embedding of `procedures.tst`: Kolmogorov-Smirnov two-sample test; the decision is
`p_value >= 0.05` and the p-value is returned alongside. -/
def tst (ks : KSFun) (z1 z2 : List ℚ) : Bool × ℚ :=
  (decide ((0.05 : ℚ) ≤ ks z1 z2), ks z1 z2)

/-- The sweep loop of `algorithm.author_verification`, over the list of swept
times, carrying `last_pvalue` (initially `-1`). -/
def verifGoG (g : GetFn) (all_chunks d1 : List Chunk) (df : DistFun) (ks : KSFun) :
    List ℤ → ℚ → Option (Bool × ℚ)
  | [], last_pvalue => some (false, last_pvalue)
  | time :: rest, last_pvalue =>
      if (d1.length : ℤ) ≤ time then some (false, last_pvalue)
      else
        (zv_z1G g all_chunks d1 time df).bind fun z1 =>
        (zv_z2G g all_chunks d1 time df).bind fun z2 =>
        if z1.length = 0 ∨ z2.length = 0 then some (false, last_pvalue)
        else
          let hp := tst ks z1 z2
          if hp.1 then some (true, hp.2)
          else verifGoG g all_chunks d1 df ks rest (max last_pvalue hp.2)

/-- Embedding of `algorithm.author_verification`, parametrised by the indexing policy.
A zero `delta_time` makes Python's `range` raise ValueError (`none`). -/
def author_verificationG (g : GetFn) (document1_chunks document2_chunks : List Chunk)
    (time_start time_end delta_time : ℤ) (df : DistFun) (ks : KSFun) :
    Option (Bool × ℚ) :=
  if delta_time = 0 then none
  else
    verifGoG g (merge_documents document1_chunks document2_chunks) document1_chunks df ks
      (pyRangeStep time_start time_end delta_time) (-1)

/-- Embedding of `algorithm.author_verification` with Python's wrapping indexing. -/
def author_verification : List Chunk → List Chunk → ℤ → ℤ → ℤ → DistFun → KSFun →
    Option (Bool × ℚ) :=
  author_verificationG pyGet

/-- Embedding of `algorithm.author_verification` over non-wrapping indexing (reference
variant used to show the wraparound branch is never reached). -/
def author_verification_nw : List Chunk → List Chunk → ℤ → ℤ → ℤ → DistFun → KSFun →
    Option (Bool × ℚ) :=
  author_verificationG pyGetNW

/-- The loop of Python's `max(d, key=d.get)` over keys `0, 1, ...` in
insertion order: keeps the current best key, replacing it only on a strictly
greater value, so the first maximal key wins. -/
def argmaxFrom : List ℚ → ℕ → ℕ → ℚ → ℕ
  | [], _, best_i, _ => best_i
  | v :: rest, idx, best_i, best_v =>
      if best_v < v then argmaxFrom rest (idx + 1) idx v
      else argmaxFrom rest (idx + 1) best_i best_v

/-- Python `max(positive_matches, key=positive_matches.get)` for a dict with
keys `0 .. n-1` in insertion order (ValueError on an empty dict). -/
def pyDictArgmax : List ℚ → Option ℕ
  | [] => none
  | v :: rest => some (argmaxFrom rest 1 0 v)

/-- The inner candidate loop of `algorithm.author_determination`: for each
candidate index, verify against the unknown document with the current outer
`time` as sweep start; on a match, max-update the score map (a KeyError on a
missing key is `none`); a match value `≥ 0.99` sets the stop flag. -/
def detInnerG (g : GetFn) (all_documents : List (List Chunk)) (doc : List Chunk)
    (time time_end delta_time : ℤ) (df : DistFun) (ks : KSFun) :
    List ℕ → List ℚ → Option (List ℚ × Bool)
  | [], scores => some (scores, false)
  | i :: rest, scores =>
      (all_documents.get? i).bind fun cand =>
      (author_verificationG g cand doc time time_end delta_time df ks).bind fun hm =>
      if hm.1 then
        (scores.get? i).bind fun cur =>
          let scores2 := scores.set i (max hm.2 cur)
          if (0.99 : ℚ) ≤ hm.2 then some (scores2, true)
          else detInnerG g all_documents doc time time_end delta_time df ks rest scores2
      else detInnerG g all_documents doc time time_end delta_time df ks rest scores

/-- The outer time loop of `algorithm.author_determination`: run the inner
candidate loop at each swept time, stopping when the stop flag is set. -/
def detOuterG (g : GetFn) (all_documents : List (List Chunk)) (doc : List Chunk)
    (time_end delta_time : ℤ) (df : DistFun) (ks : KSFun) :
    List ℤ → List ℚ → Option (List ℚ)
  | [], scores => some scores
  | time :: rest, scores =>
      (detInnerG g all_documents doc time time_end delta_time df ks
          (List.range all_documents.length) scores).bind fun sb =>
      if sb.2 then some sb.1
      else detOuterG g all_documents doc time_end delta_time df ks rest sb.1

/-- Embedding of `algorithm.author_determination`, parametrised by the indexing policy:
score map initialised to `0` for every author index, both sweep loops, then
selection of the first maximal score (`None` when that maximum is `0`). -/
def author_determinationG {A : Type} (g : GetFn) (doc : List Chunk)
    (all_documents : List (List Chunk)) (all_authors : List A)
    (time_start time_end delta_time : ℤ) (df : DistFun) (ks : KSFun) :
    Option (Option A × List ℚ) :=
  if delta_time = 0 then none
  else
    (detOuterG g all_documents doc time_end delta_time df ks
        (pyRangeStep time_start time_end delta_time)
        (List.replicate all_authors.length 0)).bind fun scores =>
    (pyDictArgmax scores).bind fun best =>
    (scores.get? best).bind fun bestv =>
    if bestv = 0 then some (none, scores)
    else (all_authors.get? best).map fun a => (some a, scores)

/-- Embedding of `algorithm.author_determination` with Python's wrapping indexing. -/
def author_determination {A : Type} : List Chunk → List (List Chunk) → List A →
    ℤ → ℤ → ℤ → DistFun → KSFun → Option (Option A × List ℚ) :=
  author_determinationG pyGet

/-- Embedding of `algorithm.author_determination` over non-wrapping indexing. -/
def author_determination_nw {A : Type} : List Chunk → List (List Chunk) → List A →
    ℤ → ℤ → ℤ → DistFun → KSFun → Option (Option A × List ℚ) :=
  author_determinationG pyGetNW

/-! ### Helper lemmas on the embedding primitives -/

theorem optMapM_congr {α β : Type} {f f2 : α → Option β} {l : List α}
    (h : ∀ a ∈ l, f a = f2 a) : optMapM f l = optMapM f2 l := by
  induction l with
  | nil => rfl
  | cons a l ih =>
    simp only [optMapM]
    rw [h a (List.mem_cons_self a l), ih (fun x hx => h x (List.mem_cons_of_mem a hx))]

theorem optMapM_map {α β : Type} {f : α → Option β} {h : α → β} {l : List α}
    (H : ∀ a ∈ l, f a = some (h a)) : optMapM f l = some (l.map h) := by
  induction l with
  | nil => rfl
  | cons a l ih =>
    simp only [optMapM, List.map_cons]
    rw [H a (List.mem_cons_self a l), ih (fun x hx => H x (List.mem_cons_of_mem a hx))]
    rfl

theorem optMapM_isSome {α β : Type} {f : α → Option β} {l : List α}
    (H : ∀ a ∈ l, ∃ b, f a = some b) : ∃ bs, optMapM f l = some bs := by
  induction l with
  | nil => exact ⟨[], rfl⟩
  | cons a l ih =>
    obtain ⟨b, hb⟩ := H a (List.mem_cons_self a l)
    obtain ⟨bs, hbs⟩ := ih (fun x hx => H x (List.mem_cons_of_mem a hx))
    exact ⟨b :: bs, by simp only [optMapM, hb, hbs]; rfl⟩

theorem optMapM_length {α β : Type} {f : α → Option β} {l : List α} {bs : List β}
    (h : optMapM f l = some bs) : bs.length = l.length := by
  induction l generalizing bs with
  | nil => simp only [optMapM] at h; cases h; rfl
  | cons a l ih =>
    simp only [optMapM] at h
    cases hfa : f a with
    | none => rw [hfa] at h; cases h
    | some b =>
      rw [hfa] at h
      cases hm : optMapM f l with
      | none => rw [hm] at h; cases h
      | some bs2 =>
        rw [hm] at h
        cases h
        simp [ih hm]

theorem optMapM_get? {α β : Type} {f : α → Option β} {l : List α} {bs : List β}
    (h : optMapM f l = some bs) : ∀ k : ℕ, bs.get? k = (l.get? k).bind f := by
  induction l generalizing bs with
  | nil => simp only [optMapM] at h; cases h; intro k; rfl
  | cons a l ih =>
    simp only [optMapM] at h
    cases hfa : f a with
    | none => rw [hfa] at h; cases h
    | some b =>
      rw [hfa] at h
      cases hm : optMapM f l with
      | none => rw [hm] at h; cases h
      | some bs2 =>
        rw [hm] at h
        cases h
        intro k
        cases k with
        | zero => simpa using hfa.symm
        | succ k => simpa using ih hm k

theorem pyRange_length {a b : ℤ} : (pyRange a b).length = (b - a).toNat := by
  unfold pyRange
  rw [List.length_map, List.length_range]

theorem mem_pyRange {t a b : ℤ} : t ∈ pyRange a b ↔ a ≤ t ∧ t < b := by
  unfold pyRange
  rw [List.mem_map]
  constructor
  · rintro ⟨k, hk, rfl⟩
    rw [List.mem_range] at hk
    omega
  · rintro ⟨h1, h2⟩
    refine ⟨(t - a).toNat, ?_, by omega⟩
    rw [List.mem_range]
    omega

theorem pyRange_get? {a b : ℤ} {k : ℕ} (hk : k < (b - a).toNat) :
    (pyRange a b).get? k = some (a + k) := by
  unfold pyRange
  rw [List.get?_map, List.get?_range hk]
  rfl

theorem pyRange_eq_nil {a b : ℤ} (h : b ≤ a) : pyRange a b = [] := by
  have : (b - a).toNat = 0 := by omega
  simp [pyRange, this]

theorem pyGet_mem {α : Type} {l : List α} {i : ℤ} {c : α} (h : pyGet l i = some c) :
    c ∈ l := by
  unfold pyGet at h
  split at h
  · exact List.get?_mem h
  · split at h
    · exact List.get?_mem h
    · cases h

theorem pyGet_eq_getD {α : Type} {l : List α} {i : ℤ} (h0 : 0 ≤ i) (h1 : i < l.length)
    (d : α) : pyGet l i = some (l.getD i.toNat d) := by
  have hk : i.toNat < l.length := by omega
  unfold pyGet
  rw [if_pos h0, List.getD_eq_get l d hk, List.get?_eq_get hk]

theorem pyGet_eq_getD_wrap {α : Type} {l : List α} {i : ℤ} (h0 : -(l.length : ℤ) ≤ i)
    (h1 : i < 0) (d : α) : pyGet l i = some (l.getD (i + l.length).toNat d) := by
  have hk : (i + l.length).toNat < l.length := by omega
  unfold pyGet
  rw [if_neg (by omega), if_pos h0, List.getD_eq_get l d hk, List.get?_eq_get hk]

theorem pyGetNW_eq {α : Type} {l : List α} {i : ℤ} (h0 : 0 ≤ i) :
    pyGetNW l i = pyGet l i := by
  unfold pyGetNW pyGet
  rw [if_pos h0, if_pos h0]

theorem pyRangeStep_le {a b s t : ℤ} (hs : 0 < s) (ht : t ∈ pyRangeStep a b s) :
    a ≤ t := by
  unfold pyRangeStep at ht
  rw [if_neg (by omega), if_pos hs] at ht
  split at ht
  · obtain ⟨k, _, rfl⟩ := List.mem_map.mp ht
    have hks : 0 ≤ (k : ℤ) * s := mul_nonneg (Int.natCast_nonneg _) hs.le
    omega
  · cases ht

theorem pyRangeStep_head {a b s : ℤ} :
    pyRangeStep a b s = [] ∨ ∃ r, pyRangeStep a b s = a :: r := by
  unfold pyRangeStep
  split
  · left; rfl
  · split
    · split
      · right
        rw [List.range_succ_eq_map, List.map_cons]
        exact ⟨_, by rw [Nat.cast_zero, zero_mul, add_zero]⟩
      · left; rfl
    · split
      · right
        rw [List.range_succ_eq_map, List.map_cons]
        exact ⟨_, by rw [Nat.cast_zero, zero_mul, add_zero]⟩
      · left; rfl

/-! ### Evaluation of the windowed dependency statistic -/

theorem pyGet_eq_getD_wrapIdx {α : Type} {l : List α} {i : ℤ} (h0 : -(l.length : ℤ) ≤ i)
    (h1 : i < l.length) (d : α) : pyGet l i = some (l.getD (pyWrapIdx l.length i) d) := by
  unfold pyWrapIdx
  by_cases hc : i < 0
  · rw [if_pos hc]
    exact pyGet_eq_getD_wrap h0 hc d
  · rw [if_neg hc]
    exact pyGet_eq_getD (by omega) h1 d

theorem getD_mem_of_lt {α : Type} {l : List α} {n : ℕ} (h : n < l.length) (d : α) :
    l.getD n d ∈ l := by
  rw [List.getD_eq_get l d h]
  exact List.get_mem l n h

/-- At a negative window size the window loop `range(time)` is empty, so the
statistic is `(1/time) * 0 = 0`, for any indexing policy: no failure at all. -/
theorem zvG_neg_time (g : GetFn) {chunks : List Chunk} {time i : ℤ} {df : DistFun}
    (hneg : time < 0) : zv_functionG g chunks time i df = some 0 := by
  unfold zv_functionG
  rw [pyRange_eq_nil (by omega)]
  simp only [optMapM, Option.some_bind]
  rw [if_neg (by omega)]
  norm_num

/-- Core evaluation lemma for `zv_function` when every accessed index is plain
(nonnegative): the statistic is the mean of the `time` distances to the
preceding window, the `j = 0` self-distance term included. -/
theorem zv_function_eval {chunks : List Chunk} {D : ℕ} {time i : ℤ} {df : DistFun}
    (Hdim : ∀ c ∈ chunks, c.length = D) (ht : 1 ≤ time)
    (hlo : 0 ≤ i - (time - 1)) (hhi : i < chunks.length) :
    zv_function chunks time i df =
      some ((1 / (time : ℚ)) *
        ((pyRange 0 time).map
          (fun j => df (chunks.getD i.toNat []) (chunks.getD (i - j).toNat []))).sum) := by
  have h0i : 0 ≤ i := by omega
  show zv_functionG pyGet chunks time i df = _
  unfold zv_functionG
  rw [optMapM_map (h := fun j => df (chunks.getD i.toNat []) (chunks.getD (i - j).toNat []))]
  · rw [Option.some_bind, if_neg (by omega)]
  · intro j hj
    rw [mem_pyRange] at hj
    rw [pyGet_eq_getD h0i hhi ([] : Chunk), Option.some_bind,
      pyGet_eq_getD (by omega) (by omega) ([] : Chunk), Option.some_bind]
    unfold document_distance
    rw [if_neg]
    rw [Hdim _ (getD_mem_of_lt (by omega) ([] : Chunk)),
      Hdim _ (getD_mem_of_lt (by omega) ([] : Chunk))]
    exact fun hne => hne rfl

/-- Evaluation lemma for `zv_function` allowing wrapped (negative) inner
indices: the `i - j < 0` accesses read position `length + (i - j)`. -/
theorem zv_function_eval_wrap {chunks : List Chunk} {D : ℕ} {time i : ℤ} {df : DistFun}
    (Hdim : ∀ c ∈ chunks, c.length = D) (ht : 1 ≤ time) (h0i : 0 ≤ i)
    (hhi : i < chunks.length) (hwrap : -(chunks.length : ℤ) ≤ i - (time - 1)) :
    zv_function chunks time i df =
      some ((1 / (time : ℚ)) *
        ((pyRange 0 time).map
          (fun j => df (chunks.getD i.toNat [])
            (chunks.getD (pyWrapIdx chunks.length (i - j)) []))).sum) := by
  show zv_functionG pyGet chunks time i df = _
  unfold zv_functionG
  rw [optMapM_map
      (h := fun j => df (chunks.getD i.toNat []) (chunks.getD (pyWrapIdx chunks.length (i - j)) []))]
  · rw [Option.some_bind, if_neg (by omega)]
  · intro j hj
    rw [mem_pyRange] at hj
    have hw1 : -(chunks.length : ℤ) ≤ i - j := by omega
    have hw2 : i - j < chunks.length := by omega
    rw [pyGet_eq_getD h0i hhi ([] : Chunk), Option.some_bind,
      pyGet_eq_getD_wrapIdx hw1 hw2 ([] : Chunk), Option.some_bind]
    unfold document_distance
    rw [if_neg]
    have hidx : pyWrapIdx chunks.length (i - j) < chunks.length := by
      unfold pyWrapIdx
      split <;> omega
    rw [Hdim _ (getD_mem_of_lt (by omega) ([] : Chunk)),
      Hdim _ (getD_mem_of_lt hidx ([] : Chunk))]
    exact fun hne => hne rfl

/-! ### Claims C5, C6, C7, C8, C9 -/

/-- C6: for every merged chunk sequence, every window size `time ≥ 1` and every
chunk index `i` (with the whole window at plain nonnegative indices), the
windowed dependency statistic equals
`ZV(i, time) = (1/time) * Σ_{j=0..time-1} ChunkDistance(chunk[i], chunk[i-j])`,
the `j = 0` self-distance term included in the sum (the map runs over
`pyRange 0 time`, whose first element is `j = 0`). -/
theorem zv_function_c6 {chunks : List Chunk} {D : ℕ} {time i : ℤ} {df : DistFun}
    (Hdim : ∀ c ∈ chunks, c.length = D) (ht : 1 ≤ time)
    (hlo : 0 ≤ i - (time - 1)) (hhi : i < chunks.length) :
    zv_function chunks time i df =
      some ((1 / (time : ℚ)) *
        ((pyRange 0 time).map
          (fun j => df (chunks.getD i.toNat []) (chunks.getD (i - j).toNat []))).sum) :=
  zv_function_eval Hdim ht hlo hhi

/-- Witness for C6: a window of size 2 at index 2 of a 3-chunk sequence,
whose two window accesses (`j = 0` and `j = 1`) are both plain. -/
theorem zv_function_c6_witness :
    zv_function [[0], [2], [6]] 2 2 (fun c1 c2 => |c1.headD 0 - c2.headD 0|) =
      some ((1 / ((2 : ℤ) : ℚ)) *
        ((pyRange 0 2).map
          (fun j => (fun c1 c2 : Chunk => |c1.headD 0 - c2.headD 0|)
            ([[0], [2], [6]].getD (Int.toNat 2) [])
            ([[0], [2], [6]].getD (2 - j).toNat []))).sum) :=
  zv_function_c6 (D := 1) (by decide) (by decide) (by decide) (by decide)

/-- C9: when the windowed statistic is evaluated with inner indices `i - j`
that may be negative (of magnitude at most the sequence length), the distance
is computed against the chunk at position `length + (i - j)` — `pyWrapIdx`
wraps exactly those negative indices to the tail — rather than raising. -/
theorem zv_function_c9 {chunks : List Chunk} {D : ℕ} {time i : ℤ} {df : DistFun}
    (Hdim : ∀ c ∈ chunks, c.length = D) (ht : 1 ≤ time) (h0i : 0 ≤ i)
    (hhi : i < chunks.length) (hwrap : -(chunks.length : ℤ) ≤ i - (time - 1)) :
    zv_function chunks time i df =
      some ((1 / (time : ℚ)) *
        ((pyRange 0 time).map
          (fun j => df (chunks.getD i.toNat [])
            (chunks.getD (pyWrapIdx chunks.length (i - j)) []))).sum) :=
  zv_function_eval_wrap Hdim ht h0i hhi hwrap

/-- Witness for C9: index 0, window 2 on a 3-chunk sequence: the `j = 1` access
has `i - j = -1`, which `pyWrapIdx` sends to the final position `3 + (-1) = 2`,
and the statistic still evaluates to `some` value instead of a bounds error. -/
theorem zv_function_c9_witness :
    zv_function [[0], [2], [6]] 2 0 (fun c1 c2 => |c1.headD 0 - c2.headD 0|) =
      some ((1 / ((2 : ℤ) : ℚ)) *
        ((pyRange 0 2).map
          (fun j => (fun c1 c2 : Chunk => |c1.headD 0 - c2.headD 0|)
            ([[0], [2], [6]].getD (Int.toNat 0) [])
            ([[0], [2], [6]].getD (pyWrapIdx 3 (0 - j)) []))).sum) :=
  zv_function_c9 (D := 1) (by decide) (by decide) (by decide) (by decide) (by decide)

/-- C7: the two-sample test returns the KS p-value together with the boolean
decision, and the decision is `true` exactly when the p-value is at least
`0.05`. -/
theorem tst_c7 : ∀ (ks : KSFun) (z1 z2 : List ℚ),
    (tst ks z1 z2).2 = ks z1 z2 ∧ ((tst ks z1 z2).1 = true ↔ (0.05 : ℚ) ≤ ks z1 z2) := by
  intro ks z1 z2
  exact ⟨rfl, by simp [tst]⟩

/-- C8 counterexample: the Verifier performs no validation of the sweep
specification.  A sweep whose window sizes are all `≤ 0`
(`time_start = -3`, `time_end = 1`) is not rejected: the computation is
attempted and runs to completion with a positive decision at window size `-3`
(every ZV value degenerates to `0` there), contradicting the claim that such
specifications are rejected rather than computed. -/
theorem author_verification_c8_counterexample :
    author_verification [[0]] [[0], [0]] (-3) 1 1 (fun _ _ => 0) (fun _ _ => 1) =
      some (true, 1) := by
  show author_verificationG pyGet [[0]] [[0], [0]] (-3) 1 1 (fun _ _ => 0) (fun _ _ => 1) = _
  have hz1 : zv_z1G pyGet (merge_documents [[0]] [[0], [0]]) [[0]] (-3) (fun _ _ => 0) =
      some [0, 0, 0] := by
    unfold zv_z1G
    rw [optMapM_map (h := fun _ => (0 : ℚ))]
    · decide
    · intro i _
      exact zvG_neg_time pyGet (by decide)
  have hz2 : zv_z2G pyGet (merge_documents [[0]] [[0], [0]]) [[0]] (-3) (fun _ _ => 0) =
      some [0] := by
    unfold zv_z2G
    rw [optMapM_map (h := fun _ => (0 : ℚ))]
    · decide
    · intro i _
      exact zvG_neg_time pyGet (by decide)
  unfold author_verificationG
  rw [if_neg (by decide)]
  have htimes : pyRangeStep (-3) 1 1 = [-3, -2, -1, 0] := by decide
  rw [htimes]
  simp only [verifGoG]
  rw [if_neg (by decide), hz1, hz2]
  simp only [Option.some_bind]
  rw [if_neg (by decide), if_pos]
  · rfl
  · exact decide_eq_true (by norm_num)

/-- C8 amended: there is no upfront validation of the sweep specification.
Evaluating the statistic at window size `time = 0` does fail hard (the
`1/time` division raises ZeroDivisionError, modelled as `none`), but a
negative window size is not rejected: the window loop is empty, the division
is defined, and the statistic evaluates to `0`. -/
theorem zv_function_c8_amended :
    (∀ (chunks : List Chunk) (i : ℤ) (df : DistFun), zv_function chunks 0 i df = none) ∧
    (∀ (chunks : List Chunk) (time i : ℤ) (df : DistFun), time < 0 →
      zv_function chunks time i df = some 0) := by
  constructor
  · intro chunks i df
    show zv_functionG pyGet chunks 0 i df = none
    unfold zv_functionG
    rw [pyRange_eq_nil (le_refl 0)]
    rfl
  · intro chunks time i df hneg
    show zv_functionG pyGet chunks time i df = some 0
    unfold zv_functionG
    rw [pyRange_eq_nil (by omega)]
    simp only [optMapM, Option.some_bind]
    rw [if_neg (by omega)]
    norm_num

/-- Witness for the amended C8: both behaviours at a concrete input. -/
theorem zv_function_c8_amended_witness :
    zv_function [[(0 : ℚ)]] 0 0 (fun _ _ => 0) = none ∧
    zv_function [[(0 : ℚ)]] (-1) 0 (fun _ _ => 0) = some 0 :=
  ⟨zv_function_c8_amended.1 _ _ _, zv_function_c8_amended.2 _ _ _ _ (by decide)⟩

/-! ### Claim C5: the sample builder's ranges and lengths -/

theorem zv_z1_isSome (all d1 : List Chunk) (time : ℤ) (df : DistFun) (D : ℕ)
    (Hdim : ∀ c ∈ all, c.length = D) (ht : 1 ≤ time) (hlen : d1.length ≤ all.length) :
    ∃ l, zv_z1G pyGet all d1 time df = some l := by
  unfold zv_z1G
  apply optMapM_isSome
  intro i hi
  rw [mem_pyRange] at hi
  exact ⟨_, zv_function_eval Hdim ht (by omega) (by omega)⟩

theorem zv_z2_isSome (all d1 : List Chunk) (time : ℤ) (df : DistFun) (D : ℕ)
    (Hdim : ∀ c ∈ all, c.length = D) (ht : 1 ≤ time) (htm : time < (d1.length : ℤ)) :
    ∃ l, zv_z2G pyGet all d1 time df = some l := by
  unfold zv_z2G
  apply optMapM_isSome
  intro i hi
  rw [mem_pyRange] at hi
  exact ⟨_, zv_function_eval Hdim ht (by omega) (by omega)⟩

/-- C5: whenever the sample builder completes on a merged sequence built from
documents of lengths `m1` and `m2`, Sample-1 is
`[ZV(i, time) : i in [time+1, m1)]`, of length `max 0 (m1 - time - 1)`, and
Sample-2 is `[ZV(i, time) : i in [m1+1, m1+m2)]`, of length `max 0 (m2 - 1)` -
the asymmetric off-by-one boundary at both ends. -/
theorem sample_builder_c5 {d1 d2 : List Chunk} {time : ℤ} {df : DistFun} {l1 l2 : List ℚ}
    (h1 : zv_z1 (merge_documents d1 d2) d1 time df = some l1)
    (h2 : zv_z2 (merge_documents d1 d2) d1 time df = some l2) :
    ((l1.length : ℤ) = max 0 ((d1.length : ℤ) - time - 1) ∧
      ∀ k : ℕ, k < l1.length →
        l1.get? k = zv_function (merge_documents d1 d2) time (time + 1 + k) df) ∧
    ((l2.length : ℤ) = max 0 ((d2.length : ℤ) - 1) ∧
      ∀ k : ℕ, k < l2.length →
        l2.get? k = zv_function (merge_documents d1 d2) time ((d1.length : ℤ) + 1 + k) df) := by
  have h1x : optMapM (fun i => zv_functionG pyGet (merge_documents d1 d2) time i df)
      (pyRange (time + 1) d1.length) = some l1 := h1
  have h2x : optMapM (fun i => zv_functionG pyGet (merge_documents d1 d2) time i df)
      (pyRange ((d1.length : ℤ) + 1) (merge_documents d1 d2).length) = some l2 := h2
  have hm : ((merge_documents d1 d2).length : ℤ) = (d1.length : ℤ) + d2.length := by
    simp [merge_documents]
  have len1 : l1.length = ((d1.length : ℤ) - (time + 1)).toNat := by
    rw [optMapM_length h1x, pyRange_length]
  have len2 : l2.length = (((merge_documents d1 d2).length : ℤ) - ((d1.length : ℤ) + 1)).toNat := by
    rw [optMapM_length h2x, pyRange_length]
  refine ⟨⟨?_, ?_⟩, ⟨?_, ?_⟩⟩
  · rw [len1]
    rw [Int.toNat_eq_max, max_comm]
    congr 1
    ring
  · intro k hk
    have hk1 : k < ((d1.length : ℤ) - (time + 1)).toNat := by omega
    rw [optMapM_get? h1x k, pyRange_get? hk1, Option.some_bind]
    rfl
  · rw [len2, hm]
    rw [Int.toNat_eq_max, max_comm]
    congr 1
    ring
  · intro k hk
    have hk2 : k < (((merge_documents d1 d2).length : ℤ) - ((d1.length : ℤ) + 1)).toNat := by
      omega
    rw [optMapM_get? h2x k, pyRange_get? hk2, Option.some_bind]
    rfl

/-- Witness for C5: both samples are built (as `some` lists) at window size 1
for documents of lengths 3 and 2, with lengths `max 0 (3-1-1) = 1` and
`max 0 (2-1) = 1`. -/
theorem sample_builder_c5_witness : ∃ l1 l2,
    zv_z1 (merge_documents [[0], [0], [0]] [[0], [0]]) [[0], [0], [0]] 1 (fun _ _ => 0) =
      some l1 ∧
    zv_z2 (merge_documents [[0], [0], [0]] [[0], [0]]) [[0], [0], [0]] 1 (fun _ _ => 0) =
      some l2 ∧
    (l1.length : ℤ) = max 0 ((([[0], [0], [0]] : List Chunk).length : ℤ) - 1 - 1) ∧
    (l2.length : ℤ) = max 0 ((([[0], [0]] : List Chunk).length : ℤ) - 1) := by
  obtain ⟨l1, h1⟩ := zv_z1_isSome (merge_documents [[0], [0], [0]] [[0], [0]]) [[0], [0], [0]]
    1 (fun _ _ => 0) 1 (by decide) (by decide) (by decide)
  obtain ⟨l2, h2⟩ := zv_z2_isSome (merge_documents [[0], [0], [0]] [[0], [0]]) [[0], [0], [0]]
    1 (fun _ _ => 0) 1 (by decide) (by decide) (by decide)
  obtain ⟨⟨e1, _⟩, ⟨e2, _⟩⟩ := sample_builder_c5 h1 h2
  exact ⟨l1, l2, h1, h2, e1, e2⟩

/-! ### Claim C1: characterization of the verification sweep -/

theorem zv_z1_def : zv_z1 = zv_z1G pyGet := rfl

theorem zv_z2_def : zv_z2 = zv_z2G pyGet := rfl

/-- Spec-side (section 4.6 of the spec): a sweep step at `time` is evaluable
when `time` is below the length of document A and both built samples are
nonempty. -/
def sweepStepOK (all_chunks d1 : List Chunk) (df : DistFun) (t : ℤ) : Bool :=
  decide (t < (d1.length : ℤ)) &&
    (match zv_z1 all_chunks d1 t df, zv_z2 all_chunks d1 t df with
     | some l1, some l2 => !l1.isEmpty && !l2.isEmpty
     | _, _ => false)

/-- Spec-side: the p-value the two-sample test yields at an evaluable step. -/
def sweepPValue (all_chunks d1 : List Chunk) (df : DistFun) (ks : KSFun) (t : ℤ) : ℚ :=
  match zv_z1 all_chunks d1 t df, zv_z2 all_chunks d1 t df with
  | some l1, some l2 => ks l1 l2
  | _, _ => 0

/-- Spec-side: a step signals "same" when it is evaluable and its p-value is
at least `0.05`. -/
def sweepMatch (all_chunks d1 : List Chunk) (df : DistFun) (ks : KSFun) (t : ℤ) : Bool :=
  sweepStepOK all_chunks d1 df t && decide ((0.05 : ℚ) ≤ sweepPValue all_chunks d1 df ks t)

/-- Spec-side description of the sweep (spec section 4.6): the evaluated steps
are the longest evaluable prefix of the swept times; the first matching step
wins with its p-value; otherwise the result is false with the running maximum
of the evaluated p-values over the initial value (`-1` at top level). -/
def sweepSpecAux (all_chunks d1 : List Chunk) (df : DistFun) (ks : KSFun)
    (times : List ℤ) (last : ℚ) : Bool × ℚ :=
  match (times.takeWhile (sweepStepOK all_chunks d1 df)).find?
      (sweepMatch all_chunks d1 df ks) with
  | some t => (true, sweepPValue all_chunks d1 df ks t)
  | none =>
      (false,
        (times.takeWhile (sweepStepOK all_chunks d1 df)).foldl
          (fun acc t => max acc (sweepPValue all_chunks d1 df ks t)) last)

theorem verifGo_spec (all_chunks d1 : List Chunk) (df : DistFun) (ks : KSFun) (D : ℕ)
    (Hdim : ∀ c ∈ all_chunks, c.length = D) (hlen : d1.length ≤ all_chunks.length) :
    ∀ (times : List ℤ) (last : ℚ), (∀ t ∈ times, 1 ≤ t) →
      verifGoG pyGet all_chunks d1 df ks times last =
        some (sweepSpecAux all_chunks d1 df ks times last) := by
  intro times
  induction times with
  | nil => intro last _; rfl
  | cons t rest ih =>
    intro last hts
    have ht1 : 1 ≤ t := hts t (List.mem_cons_self t rest)
    by_cases hguard : (d1.length : ℤ) ≤ t
    · have hok : sweepStepOK all_chunks d1 df t = false := by
        unfold sweepStepOK
        rw [decide_eq_false (by omega)]
        rfl
      simp only [verifGoG]
      rw [if_pos hguard]
      unfold sweepSpecAux
      rw [List.takeWhile_cons_of_neg (by rw [hok]; exact Bool.false_ne_true)]
      rfl
    · obtain ⟨l1, hl1⟩ := zv_z1_isSome all_chunks d1 t df D Hdim ht1 hlen
      obtain ⟨l2, hl2⟩ := zv_z2_isSome all_chunks d1 t df D Hdim ht1 (by omega)
      simp only [verifGoG]
      rw [if_neg hguard, hl1, hl2]
      simp only [Option.some_bind]
      have hpv : sweepPValue all_chunks d1 df ks t = ks l1 l2 := by
        unfold sweepPValue
        rw [zv_z1_def, zv_z2_def, hl1, hl2]
      by_cases hemp : l1.length = 0 ∨ l2.length = 0
      · rw [if_pos hemp]
        have hok : sweepStepOK all_chunks d1 df t = false := by
          unfold sweepStepOK
          rw [zv_z1_def, zv_z2_def, hl1, hl2]
          rcases hemp with h | h
          · rw [List.length_eq_zero] at h
            subst h
            simp
          · rw [List.length_eq_zero] at h
            subst h
            simp
        unfold sweepSpecAux
        rw [List.takeWhile_cons_of_neg (by rw [hok]; exact Bool.false_ne_true)]
        rfl
      · rw [if_neg hemp]
        have e1 : l1.isEmpty = false := by
          rcases l1 with _ | ⟨x, l⟩
          · simp at hemp
          · rfl
        have e2 : l2.isEmpty = false := by
          rcases l2 with _ | ⟨x, l⟩
          · simp at hemp
          · rfl
        have hok : sweepStepOK all_chunks d1 df t = true := by
          unfold sweepStepOK
          rw [zv_z1_def, zv_z2_def, hl1, hl2]
          show (decide (t < (d1.length : ℤ)) && (!l1.isEmpty && !l2.isEmpty)) = true
          rw [e1, e2, decide_eq_true (by omega)]
          rfl
        by_cases hmatch : (0.05 : ℚ) ≤ ks l1 l2
        · have hc : (tst ks l1 l2).1 = true := decide_eq_true hmatch
          rw [if_pos hc]
          have hsm : sweepMatch all_chunks d1 df ks t = true := by
            unfold sweepMatch
            rw [hok, hpv, decide_eq_true hmatch]
            rfl
          unfold sweepSpecAux
          rw [List.takeWhile_cons_of_pos hok, List.find?_cons_of_pos _ hsm]
          show some (true, (tst ks l1 l2).2) = some (true, sweepPValue all_chunks d1 df ks t)
          rw [hpv]
          rfl
        · have hc : (tst ks l1 l2).1 = false := decide_eq_false hmatch
          rw [hc]
          rw [if_neg Bool.false_ne_true]
          rw [ih (max last (tst ks l1 l2).2) (fun x hx => hts x (List.mem_cons_of_mem t hx))]
          have hsm : sweepMatch all_chunks d1 df ks t = false := by
            unfold sweepMatch
            rw [hpv, decide_eq_false hmatch]
            exact Bool.and_false _
          unfold sweepSpecAux
          rw [List.takeWhile_cons_of_pos hok,
            List.find?_cons_of_neg _ (by rw [hsm]; exact Bool.false_ne_true)]
          simp only [List.foldl_cons]
          rw [hpv]
          rfl

/-- C1: for documents with a common chunk dimensionality and a positive sweep
specification, the Verifier returns exactly the spec-side sweep result
(`sweepSpecAux`): `(true, p)` at the first swept time signalling a match (no
later step contributing), else `(false, q)` with `q` the running maximum of
the p-values of the evaluated steps over the initial `-1`. -/
theorem author_verification_c1 (d1 d2 : List Chunk) (ts te dt : ℤ) (df : DistFun)
    (ks : KSFun) (D : ℕ) (Hdim : ∀ c ∈ merge_documents d1 d2, c.length = D)
    (hts : 1 ≤ ts) (hdt : 1 ≤ dt) :
    author_verification d1 d2 ts te dt df ks =
      some (sweepSpecAux (merge_documents d1 d2) d1 df ks (pyRangeStep ts te dt) (-1)) := by
  show author_verificationG pyGet d1 d2 ts te dt df ks = _
  unfold author_verificationG
  rw [if_neg (by omega)]
  apply verifGo_spec _ _ _ _ D Hdim
  · simp [merge_documents]
  · intro t htm
    have := pyRangeStep_le (by omega) htm
    omega

/-- Witness for C1 at a concrete pair of documents and the sweep `(1, 3, 1)`. -/
theorem author_verification_c1_witness :
    author_verification [[0], [0], [0]] [[0], [0]] 1 3 1 (fun _ _ => 0) (fun _ _ => 1) =
      some (sweepSpecAux (merge_documents [[0], [0], [0]] [[0], [0]]) [[0], [0], [0]]
        (fun _ _ => 0) (fun _ _ => 1) (pyRangeStep 1 3 1) (-1)) :=
  author_verification_c1 _ _ _ _ _ _ _ 1 (by decide) (by decide) (by decide)

/-! ### Claim C2: early termination of the sweep -/

/-- C2: the sweep stops (returning `false` with the best p-value seen so far,
`-1` when nothing was evaluated) as soon as the current time reaches the
length of document A, or either built ZV sample is empty — in both cases
without running the two-sample test at that step (the conclusion holds for
every `ks`, so the test cannot have been consulted); and when
`time_start >= len(documentA)` the whole call returns `(false, -1)`
immediately. -/
theorem author_verification_c2 :
    (∀ (all_chunks d1 : List Chunk) (df : DistFun) (ks : KSFun) (time : ℤ)
      (rest : List ℤ) (last : ℚ), (d1.length : ℤ) ≤ time →
      verifGoG pyGet all_chunks d1 df ks (time :: rest) last = some (false, last)) ∧
    (∀ (all_chunks d1 : List Chunk) (df : DistFun) (ks : KSFun) (time : ℤ)
      (rest : List ℤ) (last : ℚ) (l1 l2 : List ℚ), time < (d1.length : ℤ) →
      zv_z1G pyGet all_chunks d1 time df = some l1 →
      zv_z2G pyGet all_chunks d1 time df = some l2 →
      l1 = [] ∨ l2 = [] →
      verifGoG pyGet all_chunks d1 df ks (time :: rest) last = some (false, last)) ∧
    (∀ (d1 d2 : List Chunk) (ts te dt : ℤ) (df : DistFun) (ks : KSFun),
      dt ≠ 0 → (d1.length : ℤ) ≤ ts →
      author_verification d1 d2 ts te dt df ks = some (false, -1)) := by
  have p1 : ∀ (all_chunks d1 : List Chunk) (df : DistFun) (ks : KSFun) (time : ℤ)
      (rest : List ℤ) (last : ℚ), (d1.length : ℤ) ≤ time →
      verifGoG pyGet all_chunks d1 df ks (time :: rest) last = some (false, last) := by
    intro all_chunks d1 df ks time rest last h
    simp only [verifGoG]
    rw [if_pos h]
  refine ⟨p1, ?_, ?_⟩
  · intro all_chunks d1 df ks time rest last l1 l2 hlt h1 h2 hemp
    simp only [verifGoG]
    rw [if_neg (by omega), h1, h2]
    simp only [Option.some_bind]
    rw [if_pos]
    rcases hemp with h | h
    · exact Or.inl (by rw [h]; rfl)
    · exact Or.inr (by rw [h]; rfl)
  · intro d1 d2 ts te dt df ks hdt hts
    show author_verificationG pyGet d1 d2 ts te dt df ks = _
    unfold author_verificationG
    rw [if_neg hdt]
    rcases pyRangeStep_head (a := ts) (b := te) (s := dt) with h | ⟨r, h⟩
    · rw [h]
      rfl
    · rw [h]
      exact p1 _ _ _ _ _ _ _ hts

/-- Witness for C2: all three stop behaviours at concrete inputs — time at the
document-A bound, an empty Sample-1 (document A of length 2 never yields a
nonempty Sample-1), and a whole call with `time_start ≥ len(documentA)`. -/
theorem author_verification_c2_witness :
    verifGoG pyGet [[0]] [[0]] (fun _ _ => 0) (fun _ _ => 1) [1] 5 = some (false, 5) ∧
    verifGoG pyGet (merge_documents [[0], [0]] [[0]]) [[0], [0]] (fun _ _ => 0)
      (fun _ _ => 1) [1] (-1) = some (false, -1) ∧
    author_verification [[0]] [[0]] 5 9 1 (fun _ _ => 0) (fun _ _ => 1) =
      some (false, -1) :=
  ⟨author_verification_c2.1 _ _ _ _ _ _ _ (by decide),
   author_verification_c2.2.1 _ _ _ _ _ _ _ [] [] (by decide) rfl rfl (Or.inl rfl),
   author_verification_c2.2.2 _ _ _ _ _ _ _ (by decide) (by decide)⟩

/-! ### Claim C3: infrastructure for the Determiner's selection step -/

theorem argmaxFrom_spec : ∀ (rest : List ℚ) (idx bi : ℕ) (bv : ℚ),
    (argmaxFrom rest idx bi bv = bi ∧ ∀ v ∈ rest, v ≤ bv) ∨
    (∃ k, k < rest.length ∧ argmaxFrom rest idx bi bv = idx + k ∧
      bv ≤ rest.getD k 0 ∧ ∀ v ∈ rest, v ≤ rest.getD k 0) := by
  intro rest
  induction rest with
  | nil =>
    intro idx bi bv
    left
    exact ⟨rfl, by simp⟩
  | cons v rest ih =>
    intro idx bi bv
    by_cases hv : bv < v
    · rcases ih (idx + 1) idx v with ⟨heq, hall⟩ | ⟨k, hk, heq, hbv, hall⟩
      · right
        refine ⟨0, by simp, ?_, ?_, ?_⟩
        · simp only [argmaxFrom]
          rw [if_pos hv, heq]
          omega
        · rw [List.getD_cons_zero]
          exact hv.le
        · intro w hw
          rw [List.getD_cons_zero]
          rcases List.mem_cons.mp hw with rfl | hw
          · exact le_refl w
          · exact hall w hw
      · right
        refine ⟨k + 1, by simpa using hk, ?_, ?_, ?_⟩
        · simp only [argmaxFrom]
          rw [if_pos hv, heq]
          omega
        · rw [List.getD_cons_succ]
          exact le_trans hv.le hbv
        · intro w hw
          rw [List.getD_cons_succ]
          rcases List.mem_cons.mp hw with rfl | hw
          · exact hbv
          · exact hall w hw
    · push_neg at hv
      rcases ih (idx + 1) bi bv with ⟨heq, hall⟩ | ⟨k, hk, heq, hbv, hall⟩
      · left
        refine ⟨?_, ?_⟩
        · simp only [argmaxFrom]
          rw [if_neg (not_lt.mpr hv), heq]
        · intro w hw
          rcases List.mem_cons.mp hw with rfl | hw
          · exact hv
          · exact hall w hw
      · right
        refine ⟨k + 1, by simpa using hk, ?_, ?_, ?_⟩
        · simp only [argmaxFrom]
          rw [if_neg (not_lt.mpr hv), heq]
          omega
        · rw [List.getD_cons_succ]
          exact hbv
        · intro w hw
          rw [List.getD_cons_succ]
          rcases List.mem_cons.mp hw with rfl | hw
          · exact le_trans hv hbv
          · exact hall w hw

theorem pyDictArgmax_spec {scores : List ℚ} (h : scores ≠ []) :
    ∃ b, pyDictArgmax scores = some b ∧ b < scores.length ∧
      ∀ v ∈ scores, v ≤ scores.getD b 0 := by
  rcases scores with _ | ⟨v, rest⟩
  · exact absurd rfl h
  · rcases argmaxFrom_spec rest 1 0 v with ⟨heq, hall⟩ | ⟨k, hk, heq, hbv, hall⟩
    · refine ⟨0, ?_, by simp, ?_⟩
      · simp only [pyDictArgmax]
        rw [heq]
      · intro w hw
        rw [List.getD_cons_zero]
        rcases List.mem_cons.mp hw with rfl | hw
        · exact le_refl w
        · exact hall w hw
    · refine ⟨1 + k, ?_, by simp; omega, ?_⟩
      · simp only [pyDictArgmax]
        rw [heq]
      · intro w hw
        have h1k : 1 + k = k + 1 := Nat.add_comm 1 k
        rw [h1k, List.getD_cons_succ]
        rcases List.mem_cons.mp hw with rfl | hw
        · exact hbv
        · exact hall w hw

theorem verifGoG_true_le {g : GetFn} {all_chunks d1 : List Chunk} {df : DistFun}
    {ks : KSFun} : ∀ {times : List ℤ} {last p : ℚ},
    verifGoG g all_chunks d1 df ks times last = some (true, p) → (0.05 : ℚ) ≤ p := by
  intro times
  induction times with
  | nil =>
    intro last p h
    simp only [verifGoG] at h
    cases h
  | cons t rest ih =>
    intro last p h
    simp only [verifGoG] at h
    split at h
    · cases h
    · rw [Option.bind_eq_some] at h
      obtain ⟨z1, hz1, h⟩ := h
      rw [Option.bind_eq_some] at h
      obtain ⟨z2, hz2, h⟩ := h
      split at h
      · cases h
      · split at h
        · rename_i hdec
          cases h
          exact of_decide_eq_true hdec
        · exact ih h

theorem author_verificationG_true_le {g : GetFn} {d1 d2 : List Chunk} {ts te dt : ℤ}
    {df : DistFun} {ks : KSFun} {p : ℚ}
    (h : author_verificationG g d1 d2 ts te dt df ks = some (true, p)) :
    (0.05 : ℚ) ≤ p := by
  unfold author_verificationG at h
  split at h
  · cases h
  · exact verifGoG_true_le h

theorem detInnerG_length {g : GetFn} {docs : List (List Chunk)} {doc : List Chunk}
    {time te dt : ℤ} {df : DistFun} {ks : KSFun} : ∀ {idxs : List ℕ}
    {scores s : List ℚ} {b : Bool},
    detInnerG g docs doc time te dt df ks idxs scores = some (s, b) →
    s.length = scores.length := by
  intro idxs
  induction idxs with
  | nil =>
    intro scores s b h
    simp only [detInnerG] at h
    cases h
    rfl
  | cons i rest ih =>
    intro scores s b h
    simp only [detInnerG] at h
    rw [Option.bind_eq_some] at h
    obtain ⟨cand, hcand, h⟩ := h
    rw [Option.bind_eq_some] at h
    obtain ⟨hm, hhm, h⟩ := h
    split at h
    · rw [Option.bind_eq_some] at h
      obtain ⟨cur, hcur, h⟩ := h
      split at h
      · cases h
        exact List.length_set scores i _
      · rw [ih h]
        exact List.length_set scores i _
    · exact ih h

theorem detOuterG_length {g : GetFn} {docs : List (List Chunk)} {doc : List Chunk}
    {te dt : ℤ} {df : DistFun} {ks : KSFun} : ∀ {times : List ℤ} {scores s : List ℚ},
    detOuterG g docs doc te dt df ks times scores = some s →
    s.length = scores.length := by
  intro times
  induction times with
  | nil =>
    intro scores s h
    simp only [detOuterG] at h
    cases h
    rfl
  | cons t rest ih =>
    intro scores s h
    simp only [detOuterG] at h
    rw [Option.bind_eq_some] at h
    obtain ⟨sb, hsb, h⟩ := h
    split at h
    · cases h
      exact detInnerG_length hsb
    · rw [ih h]
      exact detInnerG_length hsb

theorem detInnerG_scores_inv {g : GetFn} {docs : List (List Chunk)} {doc : List Chunk}
    {time te dt : ℤ} {df : DistFun} {ks : KSFun} : ∀ {idxs : List ℕ}
    {scores s : List ℚ} {b : Bool},
    (∀ v ∈ scores, v = 0 ∨ (0.05 : ℚ) ≤ v) →
    detInnerG g docs doc time te dt df ks idxs scores = some (s, b) →
    ∀ v ∈ s, v = 0 ∨ (0.05 : ℚ) ≤ v := by
  intro idxs
  induction idxs with
  | nil =>
    intro scores s b hinv h
    simp only [detInnerG] at h
    cases h
    exact hinv
  | cons i rest ih =>
    intro scores s b hinv h
    simp only [detInnerG] at h
    rw [Option.bind_eq_some] at h
    obtain ⟨cand, hcand, h⟩ := h
    rw [Option.bind_eq_some] at h
    obtain ⟨hm, hhm, h⟩ := h
    split at h
    · rename_i hm1
      rw [Option.bind_eq_some] at h
      obtain ⟨cur, hcur, h⟩ := h
      have hhm2 : author_verificationG g cand doc time te dt df ks = some (true, hm.2) := by
        rw [hhm]
        rw [show hm = (true, hm.2) by rw [← hm1]]
      have hp : (0.05 : ℚ) ≤ hm.2 := author_verificationG_true_le hhm2
      have hinv2 : ∀ v ∈ scores.set i (max hm.2 cur), v = 0 ∨ (0.05 : ℚ) ≤ v := by
        intro v hv
        rcases List.mem_or_eq_of_mem_set hv with hv | rfl
        · exact hinv v hv
        · exact Or.inr (le_trans hp (le_max_left _ _))
      split at h
      · cases h
        exact hinv2
      · exact ih hinv2 h
    · exact ih hinv h

theorem detOuterG_scores_inv {g : GetFn} {docs : List (List Chunk)} {doc : List Chunk}
    {te dt : ℤ} {df : DistFun} {ks : KSFun} : ∀ {times : List ℤ} {scores s : List ℚ},
    (∀ v ∈ scores, v = 0 ∨ (0.05 : ℚ) ≤ v) →
    detOuterG g docs doc te dt df ks times scores = some s →
    ∀ v ∈ s, v = 0 ∨ (0.05 : ℚ) ≤ v := by
  intro times
  induction times with
  | nil =>
    intro scores s hinv h
    simp only [detOuterG] at h
    cases h
    exact hinv
  | cons t rest ih =>
    intro scores s hinv h
    simp only [detOuterG] at h
    rw [Option.bind_eq_some] at h
    obtain ⟨sb, hsb, h⟩ := h
    split at h
    · cases h
      exact detInnerG_scores_inv hinv hsb
    · exact ih (detInnerG_scores_inv hinv hsb) h

/-- C3: whenever `author_determination` returns, it returns the full score map
(one entry per candidate author index, each entry either the default `0` or a
positively matched p-value `≥ 0.05`), together with the author at the first
maximal score, or no author at all exactly when that maximal score is `0`. -/
theorem author_determination_c3 {A : Type} (doc : List Chunk) (docs : List (List Chunk))
    (authors : List A) (ts te dt : ℤ) (df : DistFun) (ks : KSFun)
    (res : Option A) (scores : List ℚ)
    (h : author_determination doc docs authors ts te dt df ks = some (res, scores)) :
    scores.length = authors.length ∧
    (∀ v ∈ scores, v = 0 ∨ (0.05 : ℚ) ≤ v) ∧
    ∃ b, pyDictArgmax scores = some b ∧ b < scores.length ∧
      (∀ v ∈ scores, v ≤ scores.getD b 0) ∧
      (scores.getD b 0 = 0 → res = none) ∧
      (scores.getD b 0 ≠ 0 → res = authors.get? b) := by
  have h2 : author_determinationG pyGet doc docs authors ts te dt df ks =
      some (res, scores) := h
  unfold author_determinationG at h2
  split at h2
  · cases h2
  · rw [Option.bind_eq_some] at h2
    obtain ⟨scores0, hout, h2⟩ := h2
    rw [Option.bind_eq_some] at h2
    obtain ⟨best, hbest, h2⟩ := h2
    rw [Option.bind_eq_some] at h2
    obtain ⟨bestv, hbestv, h2⟩ := h2
    have hlen : scores0.length = authors.length := by
      rw [detOuterG_length hout, List.length_replicate]
    have hinv : ∀ v ∈ scores0, v = 0 ∨ (0.05 : ℚ) ≤ v :=
      detOuterG_scores_inv (fun v hv => Or.inl (List.eq_of_mem_replicate hv)) hout
    have hne : scores0 ≠ [] := by
      intro he
      rw [he] at hbest
      cases hbest
    obtain ⟨b2, hb2, hb2lt, hb2max⟩ := pyDictArgmax_spec hne
    have hbb : b2 = best := by
      rw [hbest] at hb2
      cases hb2
      rfl
    subst hbb
    have hgd : scores0.getD b2 0 = bestv := by
      rw [List.getD_eq_get?, hbestv]
      rfl
    split at h2
    · rename_i hv0
      cases h2
      refine ⟨hlen, hinv, b2, hb2, hb2lt, hb2max, fun _ => rfl, fun hne2 => ?_⟩
      rw [hgd] at hne2
      exact absurd hv0 hne2
    · rename_i hv0
      rw [Option.map_eq_some'] at h2
      obtain ⟨a, ha, h2⟩ := h2
      cases h2
      refine ⟨hlen, hinv, b2, hb2, hb2lt, hb2max, fun h0 => ?_, fun _ => ?_⟩
      · rw [hgd] at h0
        exact absurd h0 hv0
      · rw [ha]

/-! ### Concrete runs used by witnesses -/

theorem zv_function_def : zv_function = zv_functionG pyGet := rfl

theorem author_verification_def : author_verification = author_verificationG pyGet := rfl

theorem author_determination_def {A : Type} :
    (author_determination : List Chunk → List (List Chunk) → List A → ℤ → ℤ → ℤ →
      DistFun → KSFun → Option (Option A × List ℚ)) = author_determinationG pyGet := rfl

/-- With the constant-zero metric every in-range statistic evaluates to 0. -/
theorem zvG_df0 (chunks : List Chunk) (time i : ℤ) (D : ℕ)
    (Hdim : ∀ c ∈ chunks, c.length = D) (ht : 1 ≤ time)
    (hlo : 0 ≤ i - (time - 1)) (hhi : i < chunks.length) :
    zv_functionG pyGet chunks time i (fun _ _ => 0) = some 0 := by
  rw [← zv_function_def]
  rw [zv_function_eval Hdim ht hlo hhi]
  simp

theorem verif_example (ks : KSFun) :
    author_verificationG pyGet [[0], [0], [0]] [[0], [0]] 1 2 1 (fun _ _ => 0) ks =
      if (0.05 : ℚ) ≤ ks [0] [0] then some (true, ks [0] [0])
      else some (false, max (-1) (ks [0] [0])) := by
  have hM : (merge_documents [[0], [0], [0]] [[0], [0]]).length = 5 := rfl
  have hz1 : zv_z1G pyGet (merge_documents [[0], [0], [0]] [[0], [0]]) [[0], [0], [0]] 1
      (fun _ _ => 0) = some [0] := by
    unfold zv_z1G
    rw [optMapM_map (h := fun _ => (0 : ℚ))]
    · decide
    · intro i hi
      rw [mem_pyRange] at hi
      simp only [List.length_cons, List.length_nil] at hi
      refine zvG_df0 _ 1 i 1 (by decide) (by decide) (by omega) ?_
      rw [hM]
      omega
  have hz2 : zv_z2G pyGet (merge_documents [[0], [0], [0]] [[0], [0]]) [[0], [0], [0]] 1
      (fun _ _ => 0) = some [0] := by
    unfold zv_z2G
    rw [optMapM_map (h := fun _ => (0 : ℚ))]
    · decide
    · intro i hi
      rw [mem_pyRange] at hi
      rw [hM] at hi
      simp only [List.length_cons, List.length_nil] at hi
      refine zvG_df0 _ 1 i 1 (by decide) (by decide) (by omega) ?_
      rw [hM]
      omega
  unfold author_verificationG
  rw [if_neg (by decide)]
  have htimes : pyRangeStep 1 2 1 = [1] := by decide
  rw [htimes]
  simp only [verifGoG]
  rw [if_neg (by decide), hz1, hz2]
  simp only [Option.some_bind]
  rw [if_neg (by decide)]
  by_cases hks : (0.05 : ℚ) ≤ ks [0] [0]
  · rw [if_pos (show (tst ks [0] [0]).1 = true from decide_eq_true hks), if_pos hks]
    rfl
  · rw [show (tst ks [0] [0]).1 = false from decide_eq_false hks,
      if_neg Bool.false_ne_true, if_neg hks]
    rfl

theorem verif_example_one :
    author_verificationG pyGet [[0], [0], [0]] [[0], [0]] 1 2 1 (fun _ _ => 0)
      (fun _ _ => 1) = some (true, 1) := by
  rw [verif_example]
  rw [if_pos (by norm_num)]

theorem verif_example_half :
    author_verificationG pyGet [[0], [0], [0]] [[0], [0]] 1 2 1 (fun _ _ => 0)
      (fun _ _ => 1 / 2) = some (true, 1 / 2) := by
  rw [verif_example]
  rw [if_pos (by norm_num)]

theorem det_inner_example :
    detInnerG pyGet [[[0], [0], [0]]] [[0], [0]] 1 2 1 (fun _ _ => 0) (fun _ _ => 1)
      [0] [0] = some ([1], true) := by
  simp only [detInnerG]
  rw [show ([[[0], [0], [0]]] : List (List Chunk)).get? 0 = some [[0], [0], [0]] from rfl,
    Option.some_bind, verif_example_one, Option.some_bind]
  rw [if_pos (show ((true, (1 : ℚ)).1 = true) from rfl)]
  rw [show ([(0 : ℚ)] : List ℚ).get? 0 = some 0 from rfl, Option.some_bind]
  rw [if_pos (by norm_num : (0.99 : ℚ) ≤ 1)]
  rw [show ([(0 : ℚ)] : List ℚ).set 0 (max 1 0) = [max 1 0] from rfl]
  rw [max_eq_left (by norm_num : (0 : ℚ) ≤ 1)]

theorem det_example :
    author_determination [[0], [0]] [[[0], [0], [0]]] [5] 1 2 1 (fun _ _ => 0)
      (fun _ _ => 1) = some (some 5, [1]) := by
  rw [author_determination_def]
  unfold author_determinationG
  rw [if_neg (by decide)]
  have htimes : pyRangeStep 1 2 1 = [1] := by decide
  rw [htimes]
  have hout : detOuterG pyGet [[[0], [0], [0]]] [[0], [0]] 2 1 (fun _ _ => 0)
      (fun _ _ => 1) [1] (List.replicate ([5] : List ℕ).length 0) = some [1] := by
    simp only [detOuterG]
    rw [show List.replicate ([5] : List ℕ).length (0 : ℚ) = [0] from rfl]
    rw [show (List.range ([[[0], [0], [0]]] : List (List Chunk)).length) = [0] from rfl]
    rw [det_inner_example, Option.some_bind]
    rfl
  rw [hout, Option.some_bind]
  rw [show pyDictArgmax [(1 : ℚ)] = some 0 from rfl, Option.some_bind]
  rw [show ([(1 : ℚ)] : List ℚ).get? 0 = some 1 from rfl, Option.some_bind]
  rw [if_neg (by norm_num : ¬(1 : ℚ) = 0)]
  rfl

/-! ### Claim C4: the Determiner's inner loop and early stop -/

/-- C4: each inner step of the Determiner runs the Verifier with the current
outer `time` as that sub-call's sweep start together with the original
`time_end` and `delta_time` (the hypotheses pin exactly that call); on a
match the candidate's score becomes the max of its current score and the
returned confidence; a confidence `< 0.99` continues the candidate loop,
a confidence `≥ 0.99` stops it with the stop flag set, and the stop flag
makes the outer time loop return immediately, ignoring all remaining times. -/
theorem author_determination_c4 :
    (∀ (docs : List (List Chunk)) (doc cand : List Chunk) (time te dt : ℤ)
      (df : DistFun) (ks : KSFun) (i : ℕ) (rest : List ℕ) (scores : List ℚ) (v cur : ℚ),
      docs.get? i = some cand →
      author_verification cand doc time te dt df ks = some (true, v) →
      scores.get? i = some cur → v < 0.99 →
      detInnerG pyGet docs doc time te dt df ks (i :: rest) scores =
        detInnerG pyGet docs doc time te dt df ks rest (scores.set i (max v cur))) ∧
    (∀ (docs : List (List Chunk)) (doc cand : List Chunk) (time te dt : ℤ)
      (df : DistFun) (ks : KSFun) (i : ℕ) (rest : List ℕ) (scores : List ℚ) (v cur : ℚ),
      docs.get? i = some cand →
      author_verification cand doc time te dt df ks = some (true, v) →
      scores.get? i = some cur → (0.99 : ℚ) ≤ v →
      detInnerG pyGet docs doc time te dt df ks (i :: rest) scores =
        some (scores.set i (max v cur), true)) ∧
    (∀ (docs : List (List Chunk)) (doc : List Chunk) (te dt : ℤ) (df : DistFun)
      (ks : KSFun) (time : ℤ) (restTimes : List ℤ) (scores s : List ℚ),
      detInnerG pyGet docs doc time te dt df ks (List.range docs.length) scores =
        some (s, true) →
      detOuterG pyGet docs doc te dt df ks (time :: restTimes) scores = some s) := by
  refine ⟨?_, ?_, ?_⟩
  · intro docs doc cand time te dt df ks i rest scores v cur hcand hv hcur hlt
    rw [author_verification_def] at hv
    simp only [detInnerG]
    rw [hcand, Option.some_bind, hv, Option.some_bind]
    rw [if_pos (show ((true, v).1 = true) from rfl), hcur, Option.some_bind]
    rw [if_neg (not_le.mpr hlt)]
  · intro docs doc cand time te dt df ks i rest scores v cur hcand hv hcur hge
    rw [author_verification_def] at hv
    simp only [detInnerG]
    rw [hcand, Option.some_bind, hv, Option.some_bind]
    rw [if_pos (show ((true, v).1 = true) from rfl), hcur, Option.some_bind]
    rw [if_pos hge]
  · intro docs doc te dt df ks time restTimes scores s hinner
    simp only [detOuterG]
    rw [hinner, Option.some_bind]
    rfl

/-- Witness for C4: one candidate, one unknown document; a match of confidence
`1/2` max-updates and continues, a match of confidence `1` stops the inner
loop, and the stop flag makes the outer loop return at once. -/
theorem author_determination_c4_witness :
    (detInnerG pyGet [[[0], [0], [0]]] [[0], [0]] 1 2 1 (fun _ _ => 0) (fun _ _ => 1 / 2)
        [0] [0] =
      detInnerG pyGet [[[0], [0], [0]]] [[0], [0]] 1 2 1 (fun _ _ => 0) (fun _ _ => 1 / 2)
        [] ([(0 : ℚ)].set 0 (max (1 / 2) 0))) ∧
    (detInnerG pyGet [[[0], [0], [0]]] [[0], [0]] 1 2 1 (fun _ _ => 0) (fun _ _ => 1)
        [0] [0] = some ([(0 : ℚ)].set 0 (max 1 0), true)) ∧
    (detOuterG pyGet [[[0], [0], [0]]] [[0], [0]] 2 1 (fun _ _ => 0) (fun _ _ => 1)
        [1] [0] = some ([(0 : ℚ)].set 0 (max 1 0))) := by
  have hvB : author_verification [[0], [0], [0]] [[0], [0]] 1 2 1 (fun _ _ => 0)
      (fun _ _ => 1 / 2) = some (true, 1 / 2) := by
    rw [author_verification_def]
    exact verif_example_half
  have hvA : author_verification [[0], [0], [0]] [[0], [0]] 1 2 1 (fun _ _ => 0)
      (fun _ _ => 1) = some (true, 1) := by
    rw [author_verification_def]
    exact verif_example_one
  have h2 := author_determination_c4.2.1 [[[0], [0], [0]]] [[0], [0]] [[0], [0], [0]]
    1 2 1 (fun _ _ => 0) (fun _ _ => 1) 0 [] [0] 1 0 rfl hvA rfl (by norm_num)
  exact ⟨author_determination_c4.1 [[[0], [0], [0]]] [[0], [0]] [[0], [0], [0]]
      1 2 1 (fun _ _ => 0) (fun _ _ => 1 / 2) 0 [] [0] (1 / 2) 0 rfl hvB rfl (by norm_num),
    h2,
    author_determination_c4.2.2 [[[0], [0], [0]]] [[0], [0]] 2 1 (fun _ _ => 0)
      (fun _ _ => 1) 1 [] [0] _ h2⟩

/-- Witness for C3 at a concrete determination run attributing author `5`. -/
theorem author_determination_c3_witness :
    ([(1 : ℚ)] : List ℚ).length = ([5] : List ℕ).length ∧
    (∀ v ∈ [(1 : ℚ)], v = 0 ∨ (0.05 : ℚ) ≤ v) ∧
    ∃ b, pyDictArgmax [(1 : ℚ)] = some b ∧ b < [(1 : ℚ)].length ∧
      (∀ v ∈ [(1 : ℚ)], v ≤ [(1 : ℚ)].getD b 0) ∧
      ([(1 : ℚ)].getD b 0 = 0 → (some 5 : Option ℕ) = none) ∧
      ([(1 : ℚ)].getD b 0 ≠ 0 → (some 5 : Option ℕ) = ([5] : List ℕ).get? b) :=
  author_determination_c3 [[0], [0]] [[[0], [0], [0]]] [5] 1 2 1 (fun _ _ => 0)
    (fun _ _ => 1) (some 5) [1] det_example

/-! ### Claim C10: the wraparound branch is unreachable on the search paths -/

theorem zvG_nw_eq {chunks : List Chunk} {time i : ℤ} {df : DistFun}
    (h0 : 0 ≤ i) (hij : ∀ j, 0 ≤ j → j < time → 0 ≤ i - j) :
    zv_functionG pyGetNW chunks time i df = zv_functionG pyGet chunks time i df := by
  unfold zv_functionG
  congr 1
  apply optMapM_congr
  intro j hj
  rw [mem_pyRange] at hj
  rw [pyGetNW_eq h0, pyGetNW_eq (hij j hj.1 hj.2)]

theorem zv_z1G_nw_eq {all_chunks d1 : List Chunk} {time : ℤ} {df : DistFun}
    (ht : 1 ≤ time) :
    zv_z1G pyGetNW all_chunks d1 time df = zv_z1G pyGet all_chunks d1 time df := by
  unfold zv_z1G
  apply optMapM_congr
  intro i hi
  rw [mem_pyRange] at hi
  exact zvG_nw_eq (by omega) (fun j hj0 hjt => by omega)

theorem zv_z2G_nw_eq {all_chunks d1 : List Chunk} {time : ℤ} {df : DistFun}
    (ht : 1 ≤ time) (htm : time < (d1.length : ℤ)) :
    zv_z2G pyGetNW all_chunks d1 time df = zv_z2G pyGet all_chunks d1 time df := by
  unfold zv_z2G
  apply optMapM_congr
  intro i hi
  rw [mem_pyRange] at hi
  exact zvG_nw_eq (by omega) (fun j hj0 hjt => by omega)

theorem verifGoG_nw_eq {all_chunks d1 : List Chunk} {df : DistFun} {ks : KSFun} :
    ∀ {times : List ℤ} {last : ℚ}, (∀ t ∈ times, 1 ≤ t) →
    verifGoG pyGetNW all_chunks d1 df ks times last =
      verifGoG pyGet all_chunks d1 df ks times last := by
  intro times
  induction times with
  | nil => intro last _; rfl
  | cons t rest ih =>
    intro last hts
    have ht1 : 1 ≤ t := hts t (List.mem_cons_self t rest)
    simp only [verifGoG]
    by_cases hg : (d1.length : ℤ) ≤ t
    · rw [if_pos hg, if_pos hg]
    · rw [if_neg hg, if_neg hg, zv_z1G_nw_eq ht1, zv_z2G_nw_eq ht1 (by omega)]
      cases hz1 : zv_z1G pyGet all_chunks d1 t df with
      | none => rfl
      | some z1 =>
        simp only [Option.some_bind]
        cases hz2 : zv_z2G pyGet all_chunks d1 t df with
        | none => rfl
        | some z2 =>
          simp only [Option.some_bind]
          by_cases hemp : z1.length = 0 ∨ z2.length = 0
          · rw [if_pos hemp, if_pos hemp]
          · rw [if_neg hemp, if_neg hemp]
            by_cases hp1 : (tst ks z1 z2).1 = true
            · rw [if_pos hp1, if_pos hp1]
            · rw [if_neg hp1, if_neg hp1]
              exact ih (fun x hx => hts x (List.mem_cons_of_mem t hx))

theorem author_verificationG_nw_eq {d1 d2 : List Chunk} {ts te dt : ℤ} {df : DistFun}
    {ks : KSFun} (hts : 1 ≤ ts) (hdt : 1 ≤ dt) :
    author_verificationG pyGetNW d1 d2 ts te dt df ks =
      author_verificationG pyGet d1 d2 ts te dt df ks := by
  unfold author_verificationG
  rw [if_neg (by omega), if_neg (by omega)]
  apply verifGoG_nw_eq
  intro t htm
  have := pyRangeStep_le (by omega) htm
  omega

theorem detInnerG_nw_eq {docs : List (List Chunk)} {doc : List Chunk} {te dt : ℤ}
    {df : DistFun} {ks : KSFun} (hdt : 1 ≤ dt) :
    ∀ {idxs : List ℕ} {scores : List ℚ} {time : ℤ}, 1 ≤ time →
    detInnerG pyGetNW docs doc time te dt df ks idxs scores =
      detInnerG pyGet docs doc time te dt df ks idxs scores := by
  intro idxs
  induction idxs with
  | nil => intro scores time _; rfl
  | cons i rest ih =>
    intro scores time htime
    simp only [detInnerG]
    cases hcand : docs.get? i with
    | none => rfl
    | some cand =>
      simp only [Option.some_bind]
      rw [author_verificationG_nw_eq htime hdt]
      cases hv : author_verificationG pyGet cand doc time te dt df ks with
      | none => rfl
      | some hm =>
        simp only [Option.some_bind]
        by_cases hm1 : hm.1 = true
        · rw [if_pos hm1, if_pos hm1]
          cases hcur : scores.get? i with
          | none => rfl
          | some cur =>
            simp only [Option.some_bind]
            by_cases hge : (0.99 : ℚ) ≤ hm.2
            · rw [if_pos hge, if_pos hge]
            · rw [if_neg hge, if_neg hge]
              exact ih htime
        · rw [if_neg hm1, if_neg hm1]
          exact ih htime

theorem detOuterG_nw_eq {docs : List (List Chunk)} {doc : List Chunk} {te dt : ℤ}
    {df : DistFun} {ks : KSFun} (hdt : 1 ≤ dt) :
    ∀ {times : List ℤ} {scores : List ℚ}, (∀ t ∈ times, 1 ≤ t) →
    detOuterG pyGetNW docs doc te dt df ks times scores =
      detOuterG pyGet docs doc te dt df ks times scores := by
  intro times
  induction times with
  | nil => intro scores _; rfl
  | cons t rest ih =>
    intro scores hts
    simp only [detOuterG]
    rw [detInnerG_nw_eq hdt (hts t (List.mem_cons_self t rest))]
    cases hsb : detInnerG pyGet docs doc t te dt df ks (List.range docs.length) scores with
    | none => rfl
    | some sb =>
      simp only [Option.some_bind]
      by_cases hst : sb.2 = true
      · rw [if_pos hst, if_pos hst]
      · rw [if_neg hst, if_neg hst]
        exact ih (fun x hx => hts x (List.mem_cons_of_mem t hx))

theorem author_determinationG_nw_eq {A : Type} {doc : List Chunk}
    {docs : List (List Chunk)} {authors : List A} {ts te dt : ℤ} {df : DistFun}
    {ks : KSFun} (hts : 1 ≤ ts) (hdt : 1 ≤ dt) :
    author_determinationG pyGetNW doc docs authors ts te dt df ks =
      author_determinationG pyGet doc docs authors ts te dt df ks := by
  unfold author_determinationG
  rw [if_neg (by omega), if_neg (by omega)]
  rw [detOuterG_nw_eq hdt (fun t htm => by
    have := pyRangeStep_le (by omega) htm
    omega)]

/-- C10: with a positive sweep (`time_start ≥ 1`, `delta_time ≥ 1`) every inner
index pair of the Sample-1 builder satisfies `i - j ≥ 2`, every inner index
pair of the Sample-2 builder (under the sweep's `time < m1` guard) satisfies
`i - j ≥ 3`, and consequently the Verifier and the Determiner compute the very
same result when the statistic's negative-index wraparound branch is replaced
by a bounds failure: the wraparound branch is unreachable on those paths. -/
theorem wraparound_unreachable_c10 :
    (∀ (time b i j : ℤ), 1 ≤ time → i ∈ pyRange (time + 1) b → j ∈ pyRange 0 time →
      2 ≤ i - j) ∧
    (∀ (time m1 b i j : ℤ), 1 ≤ time → time < m1 → i ∈ pyRange (m1 + 1) b →
      j ∈ pyRange 0 time → 3 ≤ i - j) ∧
    (∀ (d1 d2 : List Chunk) (ts te dt : ℤ) (df : DistFun) (ks : KSFun),
      1 ≤ ts → 1 ≤ dt →
      author_verification_nw d1 d2 ts te dt df ks =
        author_verification d1 d2 ts te dt df ks) ∧
    (∀ (A : Type) (doc : List Chunk) (docs : List (List Chunk)) (authors : List A)
      (ts te dt : ℤ) (df : DistFun) (ks : KSFun), 1 ≤ ts → 1 ≤ dt →
      author_determination_nw doc docs authors ts te dt df ks =
        author_determination doc docs authors ts te dt df ks) := by
  refine ⟨?_, ?_, ?_, ?_⟩
  · intro time b i j ht hi hj
    rw [mem_pyRange] at hi hj
    omega
  · intro time m1 b i j ht htm hi hj
    rw [mem_pyRange] at hi hj
    omega
  · intro d1 d2 ts te dt df ks hts hdt
    exact author_verificationG_nw_eq hts hdt
  · intro A doc docs authors ts te dt df ks hts hdt
    exact author_determinationG_nw_eq hts hdt

/-- Witness for C10 at concrete indices and a concrete verification and
determination run. -/
theorem wraparound_unreachable_c10_witness :
    (2 : ℤ) ≤ 2 - 0 ∧ (3 : ℤ) ≤ 4 - 0 ∧
    author_verification_nw [[0], [0], [0]] [[0], [0]] 1 2 1 (fun _ _ => 0) (fun _ _ => 1) =
      author_verification [[0], [0], [0]] [[0], [0]] 1 2 1 (fun _ _ => 0) (fun _ _ => 1) ∧
    author_determination_nw [[0], [0]] [[[0], [0], [0]]] [5] 1 2 1 (fun _ _ => 0)
        (fun _ _ => 1) =
      author_determination [[0], [0]] [[[0], [0], [0]]] [5] 1 2 1 (fun _ _ => 0)
        (fun _ _ => 1) :=
  ⟨wraparound_unreachable_c10.1 1 5 2 0 (by decide) (by decide) (by decide),
   wraparound_unreachable_c10.2.1 1 3 6 4 0 (by decide) (by decide) (by decide) (by decide),
   wraparound_unreachable_c10.2.2.1 _ _ _ _ _ _ _ (by decide) (by decide),
   wraparound_unreachable_c10.2.2.2 ℕ _ _ _ _ _ _ _ _ (by decide) (by decide)⟩
